import Mathlib

/-!
Verification of the clipboard-history store.

Shallow embedding of the clipboard-history manager's core
(`addToHistory`, `enforceMemoryLimit`, `getMemoryUsage`, the IPC
handlers `clear-history`, `delete-history-item`, `toggle-pin-item`,
`get-clipboard-history`, and the clipboard-monitoring poll tick),
with theorems about its spec.

Content values (clipboard text or data-URL encoded images) are JS
strings treated by the store as opaque byte-length-bearing blobs: the
store only compares them for equality (`findIndex` with `===`) and
measures them (`Buffer.byteLength`). We therefore embed content as an
arbitrary type `α` with decidable equality, and pass the external
`Buffer.byteLength` measure as a function `byteLength : α → Nat`.

Wall-clock reads (`Date.now()` for `id`, `new Date().toISOString()`
for `timestamp`) are embedded as a single `now : Nat` parameter per
insertion: both fields are derived from the same millisecond clock
read, and an ISO string is an injective image of the millisecond
value.
-/

namespace ClipHistory

/-- One history entry, mirroring the object literal built in
`addToHistory`: `{ id, content, type, timestamp, size, pinned }`. -/
structure Entry (α : Type) where
  id : Nat
  content : α
  type : String
  timestamp : Nat
  size : Nat
  pinned : Bool
deriving DecidableEq, Repr

/-- `const MAX_MEMORY_BYTES = 500 * 1024 * 1024` (500 MiB). -/
def MAX_MEMORY_BYTES : Nat := 500 * 1024 * 1024

variable {α : Type} [DecidableEq α]

/-- `getMemoryUsage()`:
`clipboardHistory.reduce((total, item) => total + item.size, 0)`. -/
def getMemoryUsage (history : List (Entry α)) : Nat :=
  history.foldl (fun total item => total + item.size) 0

/-- The index found by the eviction scan in `enforceMemoryLimit`:
`for (let i = clipboardHistory.length - 1; i >= 0; i--) if (!clipboardHistory[i].pinned) { removeIndex = i; break; }`,
i.e. the largest index whose entry is unpinned, `none` when all
entries are pinned (`removeIndex === -1`). -/
def lastUnpinnedIdx : List (Entry α) → Option Nat
  | [] => none
  | e :: rest =>
    match lastUnpinnedIdx rest with
    | some j => some (j + 1)
    | none => if e.pinned then none else some 0

/-- The `while (getMemoryUsage() > MAX_MEMORY_BYTES)` loop of
`enforceMemoryLimit`, with explicit fuel. Each iteration removes one
element (`clipboardHistory.splice(removeIndex, 1)`), so fuel equal to
the list length makes the fuel bound unreachable: when fuel runs out
the list is empty and the loop guard is false anyway. -/
def enforceLoop : Nat → List (Entry α) → List (Entry α)
  | 0, history => history
  | fuel + 1, history =>
    if getMemoryUsage history > MAX_MEMORY_BYTES then
      match lastUnpinnedIdx history with
      | none => history
      | some i => enforceLoop fuel (history.eraseIdx i)
    else history

/-- `enforceMemoryLimit()`: evict the oldest (tail-most) unpinned
entry while total memory exceeds the ceiling; stop when all remaining
entries are pinned. -/
def enforceMemoryLimit (history : List (Entry α)) : List (Entry α) :=
  enforceLoop history.length history

/-- Removal of the first entry with the given content, mirroring
`findIndex(item => item.content === content)` followed by
`splice(existingIndex, 1)`: returns the removed entry (if any) and
the list with that one occurrence removed, order preserved. -/
def extractFirst (content : α) : List (Entry α) → Option (Entry α) × List (Entry α)
  | [] => (none, [])
  | e :: rest =>
    if e.content = content then (some e, rest)
    else
      let found := extractFirst content rest
      (found.1, e :: found.2)

/-- The insertion phase of `addToHistory` (before memory-limit
enforcement): if an entry with identical content exists it is
spliced out, its `timestamp` and `id` are refreshed from the clock,
and it is unshifted to the head (its other fields, `pinned`
included, are untouched); otherwise a fresh entry with
`size = Buffer.byteLength(content)` and `pinned = false` is
unshifted to the head. -/
def insertStep (byteLength : α → Nat) (history : List (Entry α))
    (content : α) (type : String) (now : Nat) : List (Entry α) :=
  match extractFirst content history with
  | (some existing, rest) =>
    { existing with timestamp := now, id := now } :: rest
  | (none, _) =>
    { id := now, content := content, type := type, timestamp := now,
      size := byteLength content, pinned := false } :: history

/-- `addToHistory(content, type)`: dedup-or-insert, then
`enforceMemoryLimit()`. -/
def addToHistory (byteLength : α → Nat) (history : List (Entry α))
    (content : α) (type : String) (now : Nat) : List (Entry α) :=
  enforceMemoryLimit (insertStep byteLength history content type now)

/-- The result object of the `delete-history-item` IPC handler:
`{ success: deleted, history, memoryUsage }`. -/
structure DeleteResult (α : Type) where
  success : Bool
  history : List (Entry α)
  memoryUsage : Nat
deriving DecidableEq, Repr

/-- The `delete-history-item` handler:
`clipboardHistory = clipboardHistory.filter(item => item.id !== itemId)`
with `success` true exactly when the length changed. Returns the new
history together with the result object. -/
def deleteHistoryItem (history : List (Entry α)) (itemId : Nat) :
    List (Entry α) × DeleteResult α :=
  let newHistory := history.filter (fun item => item.id ≠ itemId)
  (newHistory,
   { success := decide (history.length ≠ newHistory.length),
     history := newHistory,
     memoryUsage := getMemoryUsage newHistory })

/-- In-place mutation of the first entry found by
`clipboardHistory.find(i => i.id === itemId)` in the
`toggle-pin-item` handler: `item.pinned = !item.pinned`. Entries
after the first match are untouched. -/
def togglePinFirst : List (Entry α) → Nat → List (Entry α)
  | [], _ => []
  | e :: rest, itemId =>
    if e.id = itemId then { e with pinned := !e.pinned } :: rest
    else e :: togglePinFirst rest itemId

/-- The `toggle-pin-item` handler: if `find` locates an entry its
`pinned` flag is flipped in place and `{ success: true, history,
memoryUsage }` is returned; otherwise `{ success: false }` and the
history is untouched. The returned `Bool` is the `success` field. -/
def togglePinItem (history : List (Entry α)) (itemId : Nat) :
    List (Entry α) × Bool :=
  if history.any (fun i => i.id = itemId) then
    (togglePinFirst history itemId, true)
  else
    (history, false)

/-- The mutable module state of the main process that the claims
touch: `clipboardHistory` and `lastClipboardContent` (a string or
`null`, embedded as `Option α`). `sysClipboardCleared` records
whether the last handler call invoked `clipboard.clear()` on the
operating-system clipboard (an external effect of the Electron
`clipboard` module, observable by the poller and other apps). -/
structure World (α : Type) where
  clipboardHistory : List (Entry α)
  lastClipboardContent : Option α
  sysClipboardCleared : Bool
deriving DecidableEq, Repr

/-- The result object of the `clear-history` IPC handler:
`{ success: true, memoryUsage: 0 }`. -/
structure ClearResult where
  success : Bool
  memoryUsage : Nat
deriving DecidableEq, Repr

/-- The `clear-history` handler: `clipboardHistory = []`,
`lastClipboardContent = null`, `clipboard.clear()`, and return
`{ success: true, memoryUsage: 0 }` — unconditionally, with no check
of any entry's `pinned` flag. -/
def clearHistory (w : World α) : World α × ClearResult :=
  ({ w with clipboardHistory := [],
            lastClipboardContent := none,
            sysClipboardCleared := true },
   { success := true, memoryUsage := 0 })

/-- The snapshot object returned by the `get-clipboard-history`
handler: `{ history, currentContent: lastClipboardContent,
memoryUsage: getMemoryUsage() }`. -/
structure Snapshot (α : Type) where
  history : List (Entry α)
  currentContent : Option α
  memoryUsage : Nat
deriving DecidableEq, Repr

/-- The `get-clipboard-history` handler. -/
def getClipboardHistory (w : World α) : Snapshot α :=
  { history := w.clipboardHistory,
    currentContent := w.lastClipboardContent,
    memoryUsage := getMemoryUsage w.clipboardHistory }

/-- What `clipboard.readImage()` followed by the guarded
`toDataURL()` call can yield on a poll tick: the image is empty
(`isEmpty()` true), or it converts to a data URL, or `toDataURL()`
throws (the `catch (imageError)` branch, which only logs). -/
inductive ImageRead (α : Type) where
  | empty
  | conv (data : α)
  | failed
deriving DecidableEq, Repr

/-- The payload of a `clipboard-updated` notification sent to the
renderer: `{ history, currentContent, contentType, memoryUsage }`. -/
structure UpdatePayload (α : Type) where
  history : List (Entry α)
  currentContent : Option α
  contentType : Option String
  memoryUsage : Nat
deriving DecidableEq, Repr

/-- One tick of the `setInterval` body in `startClipboardMonitoring`.
`text` is `clipboard.readText()` with `none` for the empty (falsy)
string; `image` is the read image. Branches, in source order:
text present and different from last → new text content; text empty
and image non-empty → try `toDataURL`, new image content when it
differs from last; new content → `addToHistory` (which sends a
`clipboard-updated` payload); else text empty, image empty and last
non-null → external clear: reset last to null and send a payload
with `currentContent: null`. Returns the new world and the payload
sent, if any. -/
def pollTick (byteLength : α → Nat) (w : World α)
    (text : Option α) (image : ImageRead α) (now : Nat) :
    World α × Option (UpdatePayload α) :=
  match text with
  | some t =>
    if some t ≠ w.lastClipboardContent then
      let hist := addToHistory byteLength w.clipboardHistory t "text" now
      ({ w with clipboardHistory := hist, lastClipboardContent := some t },
       some { history := hist, currentContent := some t,
              contentType := some "text",
              memoryUsage := getMemoryUsage hist })
    else (w, none)
  | none =>
    match image with
    | ImageRead.conv data =>
      if some data ≠ w.lastClipboardContent then
        let hist := addToHistory byteLength w.clipboardHistory data "image" now
        ({ w with clipboardHistory := hist,
                  lastClipboardContent := some data },
         some { history := hist, currentContent := some data,
                contentType := some "image",
                memoryUsage := getMemoryUsage hist })
      else (w, none)
    | ImageRead.failed => (w, none)
    | ImageRead.empty =>
      if w.lastClipboardContent ≠ none then
        ({ w with lastClipboardContent := none },
         some { history := w.clipboardHistory, currentContent := none,
                contentType := none,
                memoryUsage := getMemoryUsage w.clipboardHistory })
      else (w, none)

/-- A store mutation, for stating properties of every reachable
store state: the three operations that change `clipboardHistory`. -/
inductive Op (α : Type) where
  | insert (content : α) (type : String) (now : Nat)
  | delete (id : Nat)
  | clear
deriving Repr

/-- Apply one operation to the history list. -/
def applyOp (byteLength : α → Nat) :
    List (Entry α) → Op α → List (Entry α)
  | l, Op.insert c t now => addToHistory byteLength l c t now
  | l, Op.delete id => (deleteHistoryItem l id).1
  | _, Op.clear => []

/-- The history list reached from the empty initial store by a
sequence of operations. -/
def runOps (byteLength : α → Nat) (ops : List (Op α)) : List (Entry α) :=
  ops.foldl (applyOp byteLength) []

/-- One mebibyte, for the concrete eviction scenario of the spec. -/
def mib : Nat := 1024 * 1024

/-- The spec's ceiling-eviction scenario: two unpinned insertions of
300 MiB each (contents `0` and `1`, measured by a byte-length
function that reports 300 MiB) into the initially empty store. -/
def scenario300 : List (Entry Nat) :=
  addToHistory (fun _ => 300 * mib)
    (addToHistory (fun _ => 300 * mib) [] 0 "text" 1) 1 "text" 2

/-! ## Helper lemmas -/

theorem foldl_add_size (l : List (Entry α)) (n : Nat) :
    l.foldl (fun total item => total + item.size) n =
      n + (l.map Entry.size).sum := by
  induction l generalizing n with
  | nil => simp
  | cons e rest ih => simp [ih]; omega

theorem getMemoryUsage_eq_sum (l : List (Entry α)) :
    getMemoryUsage l = (l.map Entry.size).sum := by
  simpa using foldl_add_size l 0

theorem lastUnpinnedIdx_eq_none_iff (l : List (Entry α)) :
    lastUnpinnedIdx l = none ↔ ∀ e ∈ l, e.pinned = true := by
  induction l with
  | nil => simp [lastUnpinnedIdx]
  | cons a rest ih =>
    simp only [lastUnpinnedIdx]
    cases h : lastUnpinnedIdx rest with
    | some j =>
      simp only [List.mem_cons]
      constructor
      · intro habs
        simp at habs
      · intro hall
        have hn : lastUnpinnedIdx rest = none :=
          ih.mpr (fun x hx => hall x (Or.inr hx))
        rw [hn] at h
        simp at h
    | none =>
      cases hp : a.pinned with
      | true =>
        simp [hp]
        exact ih.mp h
      | false => simp [hp]

theorem lastUnpinnedIdx_decomp (l : List (Entry α)) (i : Nat)
    (h : lastUnpinnedIdx l = some i) :
    ∃ l₁ e l₂, l = l₁ ++ e :: l₂ ∧ l₁.length = i ∧ e.pinned = false ∧
      ∀ x ∈ l₂, x.pinned = true := by
  induction l generalizing i with
  | nil => simp [lastUnpinnedIdx] at h
  | cons a rest ih =>
    simp only [lastUnpinnedIdx] at h
    cases hr : lastUnpinnedIdx rest with
    | some j =>
      rw [hr] at h
      simp only [Option.some.injEq] at h
      obtain ⟨l₁, e, l₂, hdec, hlen, hp, hall⟩ := ih j hr
      exact ⟨a :: l₁, e, l₂, by simp [hdec], by simp [hlen, ← h], hp, hall⟩
    | none =>
      rw [hr] at h
      cases hp : a.pinned with
      | true => rw [hp] at h; simp at h
      | false =>
        rw [hp] at h
        simp only [Bool.false_eq_true, if_false, Option.some.injEq] at h
        exact ⟨[], a, rest, rfl, h, hp,
          (lastUnpinnedIdx_eq_none_iff rest).mp hr⟩

theorem lastUnpinnedIdx_of_decomp (l₁ : List (Entry α)) (e : Entry α)
    (l₂ : List (Entry α)) (hp : e.pinned = false)
    (hall : ∀ x ∈ l₂, x.pinned = true) :
    lastUnpinnedIdx (l₁ ++ e :: l₂) = some l₁.length := by
  induction l₁ with
  | nil =>
    have h2 : lastUnpinnedIdx l₂ = none :=
      (lastUnpinnedIdx_eq_none_iff l₂).mpr hall
    simp [lastUnpinnedIdx, h2, hp]
  | cons a rest ih => simp [lastUnpinnedIdx, ih]

theorem eraseIdx_append_length (l₁ : List (Entry α)) (e : Entry α)
    (l₂ : List (Entry α)) :
    (l₁ ++ e :: l₂).eraseIdx l₁.length = l₁ ++ l₂ := by
  simpa using List.eraseIdx_append_of_length_le (Nat.le_refl l₁.length) (e :: l₂)

theorem enforceLoop_of_le (fuel : Nat) (l : List (Entry α))
    (h : getMemoryUsage l ≤ MAX_MEMORY_BYTES) : enforceLoop fuel l = l := by
  cases fuel with
  | zero => rfl
  | succ f => simp [enforceLoop, Nat.not_lt.mpr h]

theorem enforceLoop_succ_evict (f : Nat) (l : List (Entry α)) (i : Nat)
    (hgt : getMemoryUsage l > MAX_MEMORY_BYTES)
    (hr : lastUnpinnedIdx l = some i) :
    enforceLoop (f + 1) l = enforceLoop f (l.eraseIdx i) := by
  simp only [enforceLoop, if_pos hgt, hr]

theorem enforceLoop_succ_allPinned (f : Nat) (l : List (Entry α))
    (hr : lastUnpinnedIdx l = none) :
    enforceLoop (f + 1) l = l := by
  by_cases hgt : getMemoryUsage l > MAX_MEMORY_BYTES
  · simp only [enforceLoop, if_pos hgt, hr]
  · simp only [enforceLoop, if_neg hgt]

theorem enforceLoop_filter_pinned (fuel : Nat) (l : List (Entry α)) :
    (enforceLoop fuel l).filter (fun e => e.pinned) =
      l.filter (fun e => e.pinned) := by
  induction fuel generalizing l with
  | zero => rfl
  | succ f ih =>
    by_cases hgt : getMemoryUsage l > MAX_MEMORY_BYTES
    · cases hr : lastUnpinnedIdx l with
      | none => rw [enforceLoop_succ_allPinned f l hr]
      | some i =>
        obtain ⟨l₁, e, l₂, hdec, hlen, hp, -⟩ := lastUnpinnedIdx_decomp l i hr
        rw [enforceLoop_succ_evict f l i hgt hr, hdec, ← hlen,
          eraseIdx_append_length, ih]
        simp [List.filter_append, List.filter_cons, hp]
    · rw [enforceLoop_of_le (f + 1) l (Nat.not_lt.mp hgt)]

theorem enforceLoop_bounded (fuel : Nat) (l : List (Entry α))
    (hf : l.length ≤ fuel) :
    getMemoryUsage (enforceLoop fuel l) ≤ MAX_MEMORY_BYTES ∨
      ∀ e ∈ enforceLoop fuel l, e.pinned = true := by
  induction fuel generalizing l with
  | zero =>
    have hnil : l = [] := List.length_eq_zero.mp (Nat.le_zero.mp hf)
    subst hnil
    left
    simp [enforceLoop, getMemoryUsage]
  | succ f ih =>
    by_cases hgt : getMemoryUsage l > MAX_MEMORY_BYTES
    · cases hr : lastUnpinnedIdx l with
      | none =>
        rw [enforceLoop_succ_allPinned f l hr]
        right
        exact (lastUnpinnedIdx_eq_none_iff l).mp hr
      | some i =>
        obtain ⟨l₁, e, l₂, hdec, hlen, hp, -⟩ := lastUnpinnedIdx_decomp l i hr
        rw [enforceLoop_succ_evict f l i hgt hr, hdec, ← hlen,
          eraseIdx_append_length]
        apply ih
        rw [hdec] at hf
        simp only [List.length_append, List.length_cons] at hf ⊢
        omega
    · rw [enforceLoop_of_le (f + 1) l (Nat.not_lt.mp hgt)]
      left
      exact Nat.not_lt.mp hgt

theorem enforceMemoryLimit_of_le (l : List (Entry α))
    (h : getMemoryUsage l ≤ MAX_MEMORY_BYTES) : enforceMemoryLimit l = l :=
  enforceLoop_of_le l.length l h

theorem enforceMemoryLimit_filter_pinned (l : List (Entry α)) :
    (enforceMemoryLimit l).filter (fun e => e.pinned) =
      l.filter (fun e => e.pinned) :=
  enforceLoop_filter_pinned l.length l

theorem enforceMemoryLimit_bounded (l : List (Entry α)) :
    getMemoryUsage (enforceMemoryLimit l) ≤ MAX_MEMORY_BYTES ∨
      ∀ e ∈ enforceMemoryLimit l, e.pinned = true :=
  enforceLoop_bounded l.length l (Nat.le_refl _)

theorem enforceMemoryLimit_step (l₁ : List (Entry α)) (e : Entry α)
    (l₂ : List (Entry α))
    (hgt : getMemoryUsage (l₁ ++ e :: l₂) > MAX_MEMORY_BYTES)
    (hr : lastUnpinnedIdx (l₁ ++ e :: l₂) = some l₁.length) :
    enforceMemoryLimit (l₁ ++ e :: l₂) = enforceMemoryLimit (l₁ ++ l₂) := by
  show enforceLoop (l₁ ++ e :: l₂).length (l₁ ++ e :: l₂) = _
  have h1 : (l₁ ++ e :: l₂).length = (l₁ ++ l₂).length + 1 := by
    simp only [List.length_append, List.length_cons]
    omega
  rw [h1, enforceLoop_succ_evict _ _ _ hgt hr, eraseIdx_append_length]
  rfl

theorem extractFirst_eq_some (l₁ : List (Entry α)) (e : Entry α)
    (l₂ : List (Entry α)) (c : α) (he : e.content = c)
    (hfirst : ∀ x ∈ l₁, x.content ≠ c) :
    extractFirst c (l₁ ++ e :: l₂) = (some e, l₁ ++ l₂) := by
  induction l₁ with
  | nil => simp [extractFirst, he]
  | cons a rest ih =>
    have ha : a.content ≠ c := hfirst a (List.mem_cons_self a rest)
    have ih2 := ih (fun x hx => hfirst x (List.mem_cons_of_mem a hx))
    simp [extractFirst, ha, ih2]

theorem extractFirst_eq_none (c : α) (l : List (Entry α))
    (h : ∀ x ∈ l, x.content ≠ c) :
    extractFirst c l = (none, l) := by
  induction l with
  | nil => rfl
  | cons a rest ih =>
    have ha : a.content ≠ c := h a (List.mem_cons_self a rest)
    have ih2 := ih (fun x hx => h x (List.mem_cons_of_mem a hx))
    simp [extractFirst, ha, ih2]

theorem togglePinFirst_eq (l₁ : List (Entry α)) (e : Entry α)
    (l₂ : List (Entry α)) (itemId : Nat) (he : e.id = itemId)
    (hfirst : ∀ x ∈ l₁, x.id ≠ itemId) :
    togglePinFirst (l₁ ++ e :: l₂) itemId =
      l₁ ++ { e with pinned := !e.pinned } :: l₂ := by
  induction l₁ with
  | nil => simp [togglePinFirst, he]
  | cons a rest ih =>
    have ha : a.id ≠ itemId := hfirst a (List.mem_cons_self a rest)
    have ih2 := ih (fun x hx => hfirst x (List.mem_cons_of_mem a hx))
    simp [togglePinFirst, ha, ih2]

/-! ## Claim theorems -/

/-- Claim C1: `addToHistory(content, type)` with dedup-promotion. If
an entry with identical content exists — exhibited by the
decomposition `l = l₁ ++ e :: l₂` with no match in `l₁` — the
insertion phase removes it from its position, refreshes its
timestamp to now, reassigns its id to the freshly generated clock
value (distinct from every live id when the clock value is fresh),
and reinserts it at the head with all other fields (`pinned`
included, as the record update shows) preserved; the number of
entries does not grow. For content not present, a new entry with
`pinned = false` and `size = byteLength content` is inserted at the
head. When the memory ceiling is not hit, the post-insert store
equals the insertion-phase result. -/
theorem addToHistory_dedup_promotes (byteLength : α → Nat)
    (l : List (Entry α)) (c : α) (t : String) (now : Nat) :
    (∀ l₁ e l₂, l = l₁ ++ e :: l₂ → e.content = c →
      (∀ x ∈ l₁, x.content ≠ c) →
      insertStep byteLength l c t now =
          { e with id := now, timestamp := now } :: (l₁ ++ l₂) ∧
        (insertStep byteLength l c t now).length = l.length ∧
        ({ e with id := now, timestamp := now } : Entry α).pinned = e.pinned ∧
        (now ∉ l.map Entry.id → ∀ x ∈ l₁ ++ l₂, x.id ≠ now) ∧
        (getMemoryUsage l ≤ MAX_MEMORY_BYTES →
          addToHistory byteLength l c t now =
            { e with id := now, timestamp := now } :: (l₁ ++ l₂))) ∧
    ((∀ x ∈ l, x.content ≠ c) →
      insertStep byteLength l c t now =
          { id := now, content := c, type := t, timestamp := now,
            size := byteLength c, pinned := false } :: l ∧
        (getMemoryUsage l + byteLength c ≤ MAX_MEMORY_BYTES →
          addToHistory byteLength l c t now =
            { id := now, content := c, type := t, timestamp := now,
              size := byteLength c, pinned := false } :: l)) := by
  constructor
  · intro l₁ e l₂ hdec he hfirst
    subst hdec
    have hstep : insertStep byteLength (l₁ ++ e :: l₂) c t now =
        { e with id := now, timestamp := now } :: (l₁ ++ l₂) := by
      simp [insertStep, extractFirst_eq_some l₁ e l₂ c he hfirst]
    refine ⟨hstep, by simp [hstep]; omega, rfl, ?_, ?_⟩
    · intro hnotin x hx
      intro hxid
      apply hnotin
      rw [← hxid]
      rcases List.mem_append.mp hx with h1 | h1
      · exact List.mem_map_of_mem Entry.id (List.mem_append.mpr (Or.inl h1))
      · exact List.mem_map_of_mem Entry.id
          (List.mem_append.mpr (Or.inr (List.mem_cons_of_mem e h1)))
    · intro hle
      have husage : getMemoryUsage
          ({ e with id := now, timestamp := now } :: (l₁ ++ l₂)) =
          getMemoryUsage (l₁ ++ e :: l₂) := by
        simp only [getMemoryUsage_eq_sum, List.map_cons, List.map_append,
          List.sum_cons, List.sum_append]
        omega
      rw [addToHistory, hstep, enforceMemoryLimit_of_le _ (husage ▸ hle)]
  · intro hnone
    have hstep : insertStep byteLength l c t now =
        { id := now, content := c, type := t, timestamp := now,
          size := byteLength c, pinned := false } :: l := by
      simp [insertStep, extractFirst_eq_none c l hnone]
    refine ⟨hstep, ?_⟩
    intro hle
    have husage : getMemoryUsage
        ({ id := now, content := c, type := t, timestamp := now,
           size := byteLength c, pinned := false } :: l) =
        getMemoryUsage l + byteLength c := by
      simp only [getMemoryUsage_eq_sum, List.map_cons, List.sum_cons]
      omega
    rw [addToHistory, hstep, enforceMemoryLimit_of_le _ (by rw [husage]; exact hle)]

/-- Witness for C1: promoting the sole (pinned) entry of content `5`
at clock value `7` keeps the entry unique, refreshes `id` and
`timestamp` to `7`, and preserves `pinned = true`. -/
theorem addToHistory_dedup_promotes_witness :
    insertStep (fun _ => (1 : Nat))
        [{ id := 1, content := 5, type := "text", timestamp := 1,
           size := 9, pinned := true }] 5 "text" 7 =
      [{ id := 7, content := 5, type := "text", timestamp := 7,
         size := 9, pinned := true }] ∧
    addToHistory (fun _ => (1 : Nat))
        [{ id := 1, content := 5, type := "text", timestamp := 1,
           size := 9, pinned := true }] 5 "text" 7 =
      [{ id := 7, content := 5, type := "text", timestamp := 7,
         size := 9, pinned := true }] := by
  have h := (addToHistory_dedup_promotes (fun _ => (1 : Nat))
    [{ id := 1, content := 5, type := "text", timestamp := 1,
       size := 9, pinned := true }] 5 "text" 7).1
    [] { id := 1, content := 5, type := "text", timestamp := 1,
         size := 9, pinned := true } [] rfl rfl (by simp)
  exact ⟨by simpa using h.1, by simpa using h.2.2.2.2 (by decide)⟩

/-- Claim C2: after memory-ceiling enforcement runs (which
`addToHistory` triggers before returning), the total of `size` over
all entries is at most `MAX_MEMORY_BYTES` (500 MiB) or every
remaining entry is pinned; and enforcement never removes a pinned
entry (the pinned sublist is preserved exactly). -/
theorem ceiling_or_all_pinned_after_insert (byteLength : α → Nat)
    (l : List (Entry α)) (c : α) (t : String) (now : Nat) :
    (getMemoryUsage (addToHistory byteLength l c t now) ≤ MAX_MEMORY_BYTES ∨
      ∀ e ∈ addToHistory byteLength l c t now, e.pinned = true) ∧
    (enforceMemoryLimit l).filter (fun e => e.pinned) =
      l.filter (fun e => e.pinned) :=
  ⟨enforceMemoryLimit_bounded (insertStep byteLength l c t now),
   enforceMemoryLimit_filter_pinned l⟩

/-- Claim C3: whenever ceiling enforcement removes an entry, it
removes the tail-most unpinned one: if `e` is unpinned and every
entry after it (toward the tail) is pinned, and the ceiling is
exceeded, the enforcement loop's next removal is exactly `e`.
Concretely, inserting two unpinned 300 MiB entries under the
500 MiB ceiling leaves only the newer entry (content `1`, inserted
second) and total size 300 MiB ≤ ceiling: the older entry was the
one evicted. -/
theorem eviction_removes_oldest_unpinned (l₁ : List (Entry α))
    (e : Entry α) (l₂ : List (Entry α)) :
    (e.pinned = false → (∀ x ∈ l₂, x.pinned = true) →
      getMemoryUsage (l₁ ++ e :: l₂) > MAX_MEMORY_BYTES →
      enforceMemoryLimit (l₁ ++ e :: l₂) = enforceMemoryLimit (l₁ ++ l₂)) ∧
    (scenario300 =
        [{ id := 2, content := 1, type := "text", timestamp := 2,
           size := 300 * mib, pinned := false }] ∧
      getMemoryUsage scenario300 ≤ MAX_MEMORY_BYTES) := by
  constructor
  · intro hp hall hgt
    exact enforceMemoryLimit_step l₁ e l₂ hgt
      (lastUnpinnedIdx_of_decomp l₁ e l₂ hp hall)
  · constructor
    · decide
    · decide

/-- Witness for C3: with a newer unpinned entry at the head and an
older unpinned entry at the tail, over the ceiling, the enforcement
step removes the tail entry. -/
theorem eviction_removes_oldest_unpinned_witness :
    enforceMemoryLimit
        [{ id := 2, content := 1, type := "text", timestamp := 2,
           size := 300 * mib, pinned := false },
         { id := 1, content := 0, type := "text", timestamp := 1,
           size := 300 * mib, pinned := false }] =
      enforceMemoryLimit
        [{ id := 2, content := 1, type := "text", timestamp := 2,
           size := 300 * mib, pinned := false }] := by
  have h := (eviction_removes_oldest_unpinned
    [{ id := 2, content := (1 : Nat), type := "text", timestamp := 2,
       size := 300 * mib, pinned := false }]
    { id := 1, content := 0, type := "text", timestamp := 1,
      size := 300 * mib, pinned := false } []).1
    (by decide) (by decide) (by decide)
  simpa using h

/-- Claim C4 (code defect): entry ids come from `Date.now()` with no
uniqueness guard, so two insertions of distinct contents that
observe the same millisecond clock value (here `5`) leave two live
entries carrying the same id. Neither silently overwrites the other
(both remain live, contents `1` and `0`), but id uniqueness across
the process lifetime fails. -/
theorem duplicate_ids_same_millisecond :
    (runOps (fun _ => (1 : Nat))
        [Op.insert 0 "text" 5, Op.insert 1 "text" 5]).map Entry.id =
      [5, 5] ∧
    (runOps (fun _ => (1 : Nat))
        [Op.insert 0 "text" 5, Op.insert 1 "text" 5]).map Entry.content =
      [1, 0] := by
  constructor
  · decide
  · decide

/-- Claim C5: the `clear-history` handler unconditionally empties
the whole collection — pinned entries included, since no `pinned`
flag is consulted — reports `memoryUsage = 0`, and the memory usage
of the resulting collection is 0, for every prior store state. -/
theorem clearHistory_total_wipe (w : World α) :
    (clearHistory w).1.clipboardHistory = [] ∧
    getMemoryUsage (clearHistory w).1.clipboardHistory = 0 ∧
    (clearHistory w).2 = { success := true, memoryUsage := 0 } :=
  ⟨rfl, rfl, rfl⟩

/-- Claim C6: `delete-history-item` reports success exactly when
some entry carried the given id, no entry with that id survives,
and for an id not present in the store it returns
`success = false` with the collection and its memory usage entirely
unchanged. -/
theorem deleteHistoryItem_idempotent_safe (l : List (Entry α)) (itemId : Nat) :
    ((deleteHistoryItem l itemId).2.success = true ↔ ∃ e ∈ l, e.id = itemId) ∧
    (∀ x ∈ (deleteHistoryItem l itemId).1, x.id ≠ itemId) ∧
    (itemId ∉ l.map Entry.id →
      (deleteHistoryItem l itemId).1 = l ∧
      (deleteHistoryItem l itemId).2 =
        { success := false, history := l,
          memoryUsage := getMemoryUsage l }) := by
  refine ⟨?_, ?_, ?_⟩
  · show decide (l.length ≠
        (l.filter fun item => decide (item.id ≠ itemId)).length) = true ↔ _
    rw [decide_eq_true_iff]
    have hle := List.length_filter_le (fun item => decide (item.id ≠ itemId)) l
    constructor
    · intro hne
      have hlt : (l.filter fun item => decide (item.id ≠ itemId)).length <
          l.length := by omega
      obtain ⟨x, hx, hpx⟩ := List.length_filter_lt_length_iff_exists.mp hlt
      exact ⟨x, hx, by simpa using hpx⟩
    · intro hex
      obtain ⟨x, hx, hid⟩ := hex
      have hlt : (l.filter fun item => decide (item.id ≠ itemId)).length <
          l.length :=
        List.length_filter_lt_length_iff_exists.mpr ⟨x, hx, by simp [hid]⟩
      omega
  · intro x hx
    have hmem : x ∈ l.filter fun item => decide (item.id ≠ itemId) := hx
    simpa using (List.mem_filter.mp hmem).2
  · intro hni
    have hp : ∀ a ∈ l, (fun item => decide (item.id ≠ itemId)) a = true := by
      intro a ha
      simp only [decide_eq_true_iff]
      intro hcontra
      exact hni (hcontra ▸ List.mem_map_of_mem Entry.id ha)
    have heq : l.filter (fun item => decide (item.id ≠ itemId)) = l :=
      List.filter_eq_self.mpr hp
    have h2 : deleteHistoryItem l itemId =
        (l, { success := false, history := l,
              memoryUsage := getMemoryUsage l }) := by
      simp only [deleteHistoryItem, heq]
      simp
    exact ⟨by rw [h2], by rw [h2]⟩

/-- Witness for C6: deleting the absent id `9` from a one-entry
store returns `success = false` and leaves the store and its memory
usage unchanged. -/
theorem deleteHistoryItem_idempotent_safe_witness :
    (deleteHistoryItem
        [{ id := 1, content := (0 : Nat), type := "text", timestamp := 1,
           size := 4, pinned := false }] 9).1 =
      [{ id := 1, content := 0, type := "text", timestamp := 1,
         size := 4, pinned := false }] ∧
    (deleteHistoryItem
        [{ id := 1, content := (0 : Nat), type := "text", timestamp := 1,
           size := 4, pinned := false }] 9).2 =
      { success := false,
        history := [{ id := 1, content := 0, type := "text", timestamp := 1,
                      size := 4, pinned := false }],
        memoryUsage := 4 } := by
  have h := (deleteHistoryItem_idempotent_safe
    [{ id := 1, content := (0 : Nat), type := "text", timestamp := 1,
       size := 4, pinned := false }] 9).2.2 (by decide)
  refine ⟨h.1, ?_⟩
  rw [h.2]
  rfl

/-- Claim C7: `toggle-pin-item` flips only the `pinned` flag of the
first entry with the given id — exhibited by the decomposition
`l = l₁ ++ e :: l₂` with no match in `l₁` — leaving that entry's
other fields, its position, and every other entry untouched, and
reports success; for an id with no matching entry it reports
`success = false` and the store is unchanged. -/
theorem togglePinItem_flips_only_pinned (l : List (Entry α)) (itemId : Nat) :
    (∀ l₁ e l₂, l = l₁ ++ e :: l₂ → e.id = itemId →
      (∀ x ∈ l₁, x.id ≠ itemId) →
      togglePinItem l itemId =
        (l₁ ++ { e with pinned := !e.pinned } :: l₂, true)) ∧
    ((∀ e ∈ l, e.id ≠ itemId) → togglePinItem l itemId = (l, false)) := by
  constructor
  · intro l₁ e l₂ hdec he hfirst
    subst hdec
    have hmem : e ∈ l₁ ++ e :: l₂ :=
      List.mem_append.mpr (Or.inr (List.mem_cons_self e l₂))
    have hany : ((l₁ ++ e :: l₂).any fun i => decide (i.id = itemId)) = true :=
      List.any_eq_true.mpr ⟨e, hmem, by simp [he]⟩
    simp only [togglePinItem, hany, if_true]
    rw [togglePinFirst_eq l₁ e l₂ itemId he hfirst]
  · intro hnone
    have hany : (l.any fun i => decide (i.id = itemId)) = false := by
      rw [Bool.eq_false_iff]
      intro habs
      obtain ⟨x, hx, hpx⟩ := List.any_eq_true.mp habs
      exact hnone x hx (by simpa using hpx)
    simp [togglePinItem, hany]

/-- Witness for C7: toggling the pin of id `2` in a two-entry store
flips only that entry's `pinned` flag (false to true), leaving the
other entry, every other field, and the order unchanged. -/
theorem togglePinItem_flips_only_pinned_witness :
    togglePinItem
        [{ id := 1, content := (0 : Nat), type := "text", timestamp := 1,
           size := 4, pinned := false },
         { id := 2, content := 1, type := "text", timestamp := 2,
           size := 5, pinned := false }] 2 =
      ([{ id := 1, content := 0, type := "text", timestamp := 1,
          size := 4, pinned := false },
        { id := 2, content := 1, type := "text", timestamp := 2,
          size := 5, pinned := true }], true) := by
  have h := (togglePinItem_flips_only_pinned
    [{ id := 1, content := (0 : Nat), type := "text", timestamp := 1,
       size := 4, pinned := false },
     { id := 2, content := 1, type := "text", timestamp := 2,
       size := 5, pinned := false }] 2).1
    [{ id := 1, content := 0, type := "text", timestamp := 1,
       size := 4, pinned := false }]
    { id := 2, content := 1, type := "text", timestamp := 2,
      size := 5, pinned := false } [] rfl rfl (by decide)
  simpa using h

/-- Claim C8: on a poll tick with empty clipboard text, an empty
clipboard image, and a non-null last-observed value, the monitor
resets the last-observed value to null and sends a
`clipboard-updated` payload whose `currentContent` is null, while
the history entries and the memory usage are left untouched. -/
theorem pollTick_external_clear (byteLength : α → Nat) (w : World α)
    (now : Nat) (h : w.lastClipboardContent ≠ none) :
    pollTick byteLength w none ImageRead.empty now =
      ({ w with lastClipboardContent := none },
       some { history := w.clipboardHistory, currentContent := none,
              contentType := none,
              memoryUsage := getMemoryUsage w.clipboardHistory }) ∧
    (pollTick byteLength w none ImageRead.empty now).1.clipboardHistory =
      w.clipboardHistory ∧
    getMemoryUsage
        (pollTick byteLength w none ImageRead.empty now).1.clipboardHistory =
      getMemoryUsage w.clipboardHistory := by
  have h1 : pollTick byteLength w none ImageRead.empty now =
      ({ w with lastClipboardContent := none },
       some { history := w.clipboardHistory, currentContent := none,
              contentType := none,
              memoryUsage := getMemoryUsage w.clipboardHistory }) := by
    simp only [pollTick]
    rw [if_pos h]
  exact ⟨h1, by rw [h1], by rw [h1]⟩

/-- Witness for C8: with last-observed content `0` and an empty
store, an empty-text empty-image tick nulls the current content and
emits a payload with `currentContent = null` and untouched (empty)
history. -/
theorem pollTick_external_clear_witness :
    pollTick (fun _ => (1 : Nat))
        { clipboardHistory := [], lastClipboardContent := some 0,
          sysClipboardCleared := false } none ImageRead.empty 3 =
      ({ clipboardHistory := [], lastClipboardContent := none,
         sysClipboardCleared := false },
       some { history := [], currentContent := none, contentType := none,
              memoryUsage := 0 }) := by
  have h := pollTick_external_clear (fun _ => (1 : Nat))
    { clipboardHistory := [], lastClipboardContent := some 0,
      sysClipboardCleared := false } 3 (by simp)
  simpa using h.1

/-- Claim C9: for every store state reachable from the empty store
by any sequence of insert, delete, and clear operations,
`getMemoryUsage()` returns exactly the sum of the `size` fields of
the currently present entries — no drift. -/
theorem memoryUsage_no_drift (byteLength : α → Nat) (ops : List (Op α)) :
    getMemoryUsage (runOps byteLength ops) =
      ((runOps byteLength ops).map Entry.size).sum :=
  getMemoryUsage_eq_sum (runOps byteLength ops)

/-- Claim C10 (implicit behavior): beyond emptying the collection,
the `clear-history` handler also resets the last-observed
current-content value to null and clears the operating-system
clipboard (`clipboard.clear()`), so a subsequent
`get-clipboard-history` snapshot reports `currentContent = null`. -/
theorem clearHistory_resets_clipboard_state (w : World α) :
    (clearHistory w).1.lastClipboardContent = none ∧
    (clearHistory w).1.sysClipboardCleared = true ∧
    (getClipboardHistory (clearHistory w).1).currentContent = none ∧
    (clearHistory w).1.clipboardHistory = [] :=
  ⟨rfl, rfl, rfl, rfl⟩

end ClipHistory
